import Mathlib

/-!
Verification of the staged-timer program (src/main.rs): the timer state
machine (`update_state`, the pause toggle), timer construction
(`create_timer_list`), the duration-string parser (`TimeValueParser`),
and the gauge-color selection of `update_display`, shallowly embedded
over `Nat` (Rust `u32` values; overflow/underflow is tracked by explicit
predicates where it matters).
-/

namespace StagedTimer

/-- Embeds `struct TimerStage` (main.rs lines 36-40): a named stage with
its total duration `period_s` and accumulated `elapsed_s`, both `u32`
in the source, modelled as `Nat`. -/
structure TimerStage where
  name : String
  period_s : Nat
  elapsed_s : Nat
deriving Repr, DecidableEq

/-- Embeds `struct Timer` (main.rs lines 42-46): the stage list, the
index of the active stage (`current_timer`, a `usize`), and the pause
flag. -/
structure Timer where
  stages : List TimerStage
  current_timer : Nat
  paused : Bool
deriving Repr, DecidableEq

/-- Embeds `fn update_state(timer: &mut Timer) -> bool` (main.rs lines
97-120), the `advance()` operation of the spec: returns the new state
together with the returned `bool`. The subtraction
`t.period_s - t.elapsed_s` is `u32` subtraction in the source; it is
modelled as truncated `Nat` subtraction, and the states on which the
two differ (underflow) are characterised by `update_state_underflows`
below. -/
def update_state (timer : Timer) : Timer × Bool :=
  if h : timer.stages.length ≤ timer.current_timer then
    (timer, false)
  else if timer.paused then
    (timer, true)
  else
    let t := timer.stages.get ⟨timer.current_timer, Nat.lt_of_not_le h⟩
    let t1 : TimerStage := { t with elapsed_s := t.elapsed_s + 1 }
    let stages1 := timer.stages.set timer.current_timer t1
    let current1 :=
      if t1.period_s - t1.elapsed_s = 0 then timer.current_timer + 1
      else timer.current_timer
    ({ stages := stages1, current_timer := current1, paused := timer.paused }, true)

/-- Embeds the space-bar handler `timer.paused = !timer.paused`
(main.rs line 322), the `toggle_pause()` operation of the spec. -/
def toggle_pause (timer : Timer) : Timer :=
  { timer with paused := !timer.paused }

/-- Embeds `fn create_timer_list` (main.rs lines 250-256): each
(name, time) pair becomes a stage with `elapsed_s = 0`. -/
def create_timer_list (names_and_times : List (String × Nat)) : List TimerStage :=
  names_and_times.map (fun nt => { name := nt.1, period_s := nt.2, elapsed_s := 0 })

/-- Embeds the `Timer` literal built in `main` (main.rs lines 262-266):
`current_timer = 0`, stages from `create_timer_list`, unpaused. -/
def init_timer (names_and_times : List (String × Nat)) : Timer :=
  { stages := create_timer_list names_and_times
  , current_timer := 0
  , paused := false }

/-- State after `n` successive calls to `update_state` (the value the
main loop keeps mutating), discarding the returned booleans. -/
def advance_iter (timer : Timer) : Nat → Timer
  | 0 => timer
  | n + 1 => (update_state (advance_iter timer n)).1

/-- State after `n` successive calls to `toggle_pause`. -/
def toggle_iter (timer : Timer) : Nat → Timer
  | 0 => timer
  | n + 1 => toggle_pause (toggle_iter timer n)

/-- Embeds Rust `str::parse::<u32>()` as used on each colon-separated
segment (main.rs line 75), over the segment's character list: an
optional leading `+` sign followed by at least one ASCII digit, with
the value required to fit in `u32`. -/
def parse_u32 (s : List Char) : Option Nat :=
  let digits :=
    match s with
    | Char.ofNat 43 :: rest => rest
    | _ => s
  if digits ≠ [] ∧ digits.all (fun c => c.isDigit) then
    let n := digits.foldl (fun acc c => acc * 10 + (c.toNat - 48)) 0
    if n < 2 ^ 32 then some n else none
  else none

/-- Embeds Rust `time_str.split(":")` (main.rs line 63) on the string's
character list: empty segments are kept, the empty string yields one
empty segment, and a trailing separator yields a trailing empty
segment. -/
def split_colon : List Char → List (List Char)
  | [] => [[]]
  | c :: rest =>
    if c = Char.ofNat 58 then [] :: split_colon rest
    else
      match split_colon rest with
      | s :: ss => (c :: s) :: ss
      | [] => [[c]]

/-- Embeds the accumulation loop of `TimeValueParser::parse_ref`
(main.rs lines 71-84): walks the segments right-to-left carrying the
mutable `sec` and `factor`, failing as soon as a segment does not
parse. `sec += parsed * factor` (line 76) and `factor *= 60` (line 77)
are `u32` operations in the source; each is modelled with wrapping
(`% 2^32`, the release-build semantics), and the inputs on which any
of them overflows — where a debug build panics instead of wrapping —
are characterised by `parse_time_loop_overflows` below. -/
def parse_time_loop : List (List Char) → Nat → Nat → Option Nat
  | [], sec, _ => some sec
  | segm :: rest, sec, factor =>
    match parse_u32 segm with
    | some parsed =>
      parse_time_loop rest ((sec + parsed * factor % 2 ^ 32) % 2 ^ 32)
        (factor * 60 % 2 ^ 32)
    | none => none

/-- One of the `u32` operations of the accumulation loop overflows
while processing the given (rightmost-first) segments: the
multiplication `parsed * factor` or the addition `sec + ...` of
main.rs line 76, or the multiplication `factor * 60` of line 77. On
these inputs a release build wraps and a debug build panics, so the
`Nat` model and the program agree exactly when this predicate is
`false`. -/
def parse_time_loop_overflows : List (List Char) → Nat → Nat → Bool
  | [], _, _ => false
  | segm :: rest, sec, factor =>
    match parse_u32 segm with
    | some parsed =>
      decide (2 ^ 32 ≤ parsed * factor) ||
      decide (2 ^ 32 ≤ sec + parsed * factor % 2 ^ 32) ||
      decide (2 ^ 32 ≤ factor * 60) ||
      parse_time_loop_overflows rest ((sec + parsed * factor % 2 ^ 32) % 2 ^ 32)
        (factor * 60 % 2 ^ 32)
    | none => false

/-- Embeds `TimeValueParser::parse_ref` (main.rs lines 54-87): splits
the input on `:` and runs the right-to-left accumulation loop. -/
def parse_ref (value : String) : Option Nat :=
  parse_time_loop (split_colon value.data).reverse 0 1

/-- The accumulator arithmetic of `parse_ref` overflows `u32` on the
given input string. -/
def parse_ref_overflows (value : String) : Bool :=
  parse_time_loop_overflows (split_colon value.data).reverse 0 1

/-- Modelled from the spec: the parser's intended meaning, a
right-to-left base-60 interpretation — the segment list is given
rightmost-first and the i-th segment from the right contributes
`value * 60 ^ i`. Written from the spec's words, to be compared with
`parse_ref`. -/
def spec_interp : List (List Char) → Option Nat
  | [] => some 0
  | seg :: rest =>
    match parse_u32 seg, spec_interp rest with
    | some v, some r => some (v + 60 * r)
    | _, _ => none

/-- Embeds the terminal colors of the source: `GREY` and
`MUSTARD_YELLOW` are `Color::Rgb` constants (main.rs lines 33-34),
`White` is `Color::White`. -/
inductive Color where
  | Rgb (r g b : Nat) : Color
  | White : Color
deriving Repr, DecidableEq

/-- `const GREY` (main.rs line 33). -/
def GREY : Color := Color.Rgb 42 42 42

/-- `const MUSTARD_YELLOW` (main.rs line 34). -/
def MUSTARD_YELLOW : Color := Color.Rgb 0xff 0xe5 0

/-- Embeds the gauge foreground-color selection of `update_display`
(main.rs lines 168-181) for the stage drawn at index `i`: the active
stage is mustard yellow when the warning threshold is positive and the
remaining time is within it, otherwise white; every other stage is
grey. The subtraction is `u32` in the source, truncated `Nat` here. -/
def gauge_color (i : Nat) (current_timer : Nat) (stage : TimerStage)
    (warning_threshold : Nat) : Color :=
  if i = current_timer then
    if warning_threshold > 0 ∧ stage.period_s - stage.elapsed_s ≤ warning_threshold then
      MUSTARD_YELLOW
    else
      Color.White
  else GREY

/-- The `u32` subtraction `t.period_s - t.elapsed_s` of `update_state`
(main.rs line 115) underflows: the subtraction is reached (active stage
exists and the timer is unpaused) and, after the increment of line 113,
`elapsed_s` exceeds `period_s`. -/
def update_state_underflows (timer : Timer) : Bool :=
  if h : timer.current_timer < timer.stages.length then
    let t := timer.stages.get ⟨timer.current_timer, h⟩
    !timer.paused && decide (t.period_s < t.elapsed_s + 1)
  else false

/-- The `u32` increment `t.elapsed_s += 1` of `update_state` (main.rs
line 113) overflows: the increment is reached and the incremented value
does not fit in `u32`. -/
def update_state_increment_overflows (timer : Timer) : Bool :=
  if h : timer.current_timer < timer.stages.length then
    let t := timer.stages.get ⟨timer.current_timer, h⟩
    !timer.paused && decide (2 ^ 32 ≤ t.elapsed_s + 1)
  else false

/-- One of the `u32` subtractions `timer.period_s - timer.elapsed_s` of
`update_display` (main.rs lines 150, 162, 173), computed for every
stage of the list, underflows. -/
def update_display_underflows (timer : Timer) : Bool :=
  timer.stages.any (fun t => decide (t.period_s < t.elapsed_s))

/-- The invariant stated by the spec's data model: every stage has
`0 ≤ elapsed_s ≤ duration_s` (the lower bound is inherent to `Nat`) and
`current_timer ∈ [0, len(stages)]`. -/
def stage_bounds_inv (timer : Timer) : Prop :=
  (∀ s ∈ timer.stages, s.elapsed_s ≤ s.period_s) ∧
  timer.current_timer ≤ timer.stages.length

/-- The inductive strengthening of `stage_bounds_inv` that actually
holds on reachable states: every period is positive, elapsed never
exceeds the period, the active stage is strictly unfinished, and stages
after the active one are untouched. -/
def reach_inv (timer : Timer) : Prop :=
  timer.current_timer ≤ timer.stages.length ∧
  (∀ s ∈ timer.stages, 1 ≤ s.period_s ∧ s.elapsed_s ≤ s.period_s) ∧
  (∀ i, (h : i < timer.stages.length) → i = timer.current_timer →
    (timer.stages.get ⟨i, h⟩).elapsed_s < (timer.stages.get ⟨i, h⟩).period_s) ∧
  (∀ i, (h : i < timer.stages.length) → timer.current_timer < i →
    (timer.stages.get ⟨i, h⟩).elapsed_s = 0)

/-- One user-visible mutation of the timer in the main loop: a tick
(`update_state`) or a space-bar press (`toggle_pause`). -/
inductive Op where
  | advance : Op
  | toggle : Op
deriving Repr, DecidableEq

/-- Applies one operation to the state, discarding `update_state`'s
returned boolean. -/
def apply_op (timer : Timer) : Op → Timer
  | Op.advance => (update_state timer).1
  | Op.toggle => toggle_pause timer

/-- State after an arbitrary interleaving of ticks and pause toggles. -/
def run_ops (timer : Timer) (ops : List Op) : Timer :=
  ops.foldl apply_op timer

/-! ### Helper lemmas about `update_state` and the iterated operations -/

/-- Terminal branch of `update_state` (main.rs lines 104-106). -/
theorem update_state_terminal {t : Timer} (h : t.stages.length ≤ t.current_timer) :
    update_state t = (t, false) := by
  unfold update_state
  rw [dif_pos h]

/-- Paused branch of `update_state` (main.rs lines 108-110). -/
theorem update_state_paused {t : Timer} (h : ¬ t.stages.length ≤ t.current_timer)
    (hp : t.paused = true) : update_state t = (t, true) := by
  unfold update_state
  rw [dif_neg h, if_pos hp]

/-- Running branch of `update_state` (main.rs lines 112-119). -/
theorem update_state_run {t : Timer} (h : t.current_timer < t.stages.length)
    (hp : t.paused = false) :
    update_state t =
      ({ stages := t.stages.set t.current_timer
           { t.stages.get ⟨t.current_timer, h⟩ with
             elapsed_s := (t.stages.get ⟨t.current_timer, h⟩).elapsed_s + 1 }
       , current_timer :=
           if (t.stages.get ⟨t.current_timer, h⟩).period_s -
               ((t.stages.get ⟨t.current_timer, h⟩).elapsed_s + 1) = 0
           then t.current_timer + 1 else t.current_timer
       , paused := t.paused }, true) := by
  unfold update_state
  rw [dif_neg (Nat.not_le_of_lt h), if_neg (by simp [hp])]

theorem set_get_self (l : List TimerStage) (i : Nat) (h : i < l.length) :
    l.set i (l.get ⟨i, h⟩) = l := by
  apply List.ext_getElem
  · simp
  · intro n h1 h2
    rw [List.getElem_set]
    split
    · subst n; rfl
    · rfl

theorem update_state_stages_length (t : Timer) :
    (update_state t).1.stages.length = t.stages.length := by
  by_cases hterm : t.stages.length ≤ t.current_timer
  · rw [update_state_terminal hterm]
  · cases hp : t.paused
    · rw [update_state_run (Nat.lt_of_not_le hterm) hp]
      simp
    · rw [update_state_paused hterm hp]

/-- `List.get` after `set` at a different index, with the bound on the
original list supplied explicitly. -/
theorem get_set_other (l : List TimerStage) (i j : Nat) (a : TimerStage)
    (hne : i ≠ j) (hj : j < (l.set i a).length) (hj2 : j < l.length) :
    (l.set i a).get ⟨j, hj⟩ = l.get ⟨j, hj2⟩ :=
  List.get_set_ne hne hj

/-- `toggle_pause` touches only `paused`, which `reach_inv` never
mentions. -/
theorem reach_inv_toggle {t : Timer} (h : reach_inv t) : reach_inv (toggle_pause t) := h

/-- The running branch of `update_state` preserves `reach_inv`. -/
theorem reach_inv_step (stages : List TimerStage) (ct : Nat) (p : Bool)
    (hlt : ct < stages.length)
    (hinv : reach_inv { stages := stages, current_timer := ct, paused := p }) :
    reach_inv
      { stages := stages.set ct
          { stages.get ⟨ct, hlt⟩ with
            elapsed_s := (stages.get ⟨ct, hlt⟩).elapsed_s + 1 }
      , current_timer :=
          if (stages.get ⟨ct, hlt⟩).period_s -
              ((stages.get ⟨ct, hlt⟩).elapsed_s + 1) = 0
          then ct + 1 else ct
      , paused := p } := by
  unfold reach_inv at hinv ⊢
  dsimp only at hinv ⊢
  obtain ⟨hle, hall, hact, hfut⟩ := hinv
  have hstrict := hact ct hlt rfl
  have hmem1 : stages.get ⟨ct, hlt⟩ ∈ stages := List.get_mem stages ct hlt
  by_cases hdone : (stages.get ⟨ct, hlt⟩).period_s -
      ((stages.get ⟨ct, hlt⟩).elapsed_s + 1) = 0
  · rw [if_pos hdone]
    refine ⟨?_, ?_, ?_, ?_⟩
    · rw [List.length_set]
      exact Nat.succ_le_of_lt hlt
    · intro s hs
      rcases List.mem_or_eq_of_mem_set hs with hs1 | hs1
      · exact hall s hs1
      · subst hs1
        exact ⟨(hall _ hmem1).1, Nat.succ_le_of_lt hstrict⟩
    · intro i hi hieq
      have hi2 : i < stages.length := by
        rw [List.length_set] at hi
        exact hi
      rw [get_set_other stages ct i _ (by omega) hi hi2]
      have h0 := hfut i hi2 (by omega)
      have h1 := (hall _ (List.get_mem stages i hi2)).1
      rw [h0]
      exact h1
    · intro i hi hgt
      have hi2 : i < stages.length := by
        rw [List.length_set] at hi
        exact hi
      rw [get_set_other stages ct i _ (by omega) hi hi2]
      exact hfut i hi2 (by omega)
  · rw [if_neg hdone]
    have hlt2 : (stages.get ⟨ct, hlt⟩).elapsed_s + 1 < (stages.get ⟨ct, hlt⟩).period_s := by
      omega
    refine ⟨?_, ?_, ?_, ?_⟩
    · rw [List.length_set]
      exact Nat.le_of_lt hlt
    · intro s hs
      rcases List.mem_or_eq_of_mem_set hs with hs1 | hs1
      · exact hall s hs1
      · subst hs1
        exact ⟨(hall _ hmem1).1, Nat.le_of_lt hlt2⟩
    · intro i hi hieq
      subst hieq
      rw [List.get_set_eq hi]
      exact hlt2
    · intro i hi hgt
      have hi2 : i < stages.length := by
        rw [List.length_set] at hi
        exact hi
      rw [get_set_other stages ct i _ (by omega) hi hi2]
      exact hfut i hi2 (by omega)

/-- Every branch of `update_state` preserves `reach_inv`. -/
theorem reach_inv_advance {t : Timer} (h : reach_inv t) : reach_inv (update_state t).1 := by
  by_cases hterm : t.stages.length ≤ t.current_timer
  · rw [update_state_terminal hterm]
    exact h
  · cases hp : t.paused with
    | true =>
      rw [update_state_paused hterm hp]
      exact h
    | false =>
      have hlt := Nat.lt_of_not_le hterm
      rw [update_state_run hlt hp]
      have h2 : reach_inv
          { stages := t.stages, current_timer := t.current_timer, paused := t.paused } := h
      exact reach_inv_step t.stages t.current_timer t.paused hlt h2

/-- A freshly constructed timer whose requested durations are all
positive satisfies `reach_inv`. -/
theorem reach_inv_init (nts : List (String × Nat)) (hpos : ∀ p ∈ nts, 1 ≤ p.2) :
    reach_inv (init_timer nts) := by
  unfold reach_inv init_timer create_timer_list
  dsimp only
  refine ⟨Nat.zero_le _, ?_, ?_, ?_⟩
  · intro s hs
    rw [List.mem_map] at hs
    obtain ⟨q, hq, rfl⟩ := hs
    exact ⟨hpos q hq, Nat.zero_le _⟩
  · intro i hi hieq
    have hmem := List.get_mem (nts.map fun nt =>
      ({ name := nt.1, period_s := nt.2, elapsed_s := 0 } : TimerStage)) i hi
    rw [List.mem_map] at hmem
    obtain ⟨q, hq, hval⟩ := hmem
    rw [← hval]
    exact hpos q hq
  · intro i hi hgt
    have hmem := List.get_mem (nts.map fun nt =>
      ({ name := nt.1, period_s := nt.2, elapsed_s := 0 } : TimerStage)) i hi
    rw [List.mem_map] at hmem
    obtain ⟨q, hq, hval⟩ := hmem
    rw [← hval]

/-- `reach_inv` holds after any interleaving of ticks and toggles. -/
theorem reach_inv_run_ops {t : Timer} (h : reach_inv t) (ops : List Op) :
    reach_inv (run_ops t ops) := by
  induction ops generalizing t with
  | nil => exact h
  | cons op rest ih =>
    cases op with
    | advance => exact ih (reach_inv_advance h)
    | toggle => exact ih (reach_inv_toggle h)

/-! ### Claim theorems -/

/-- C2: `advance()` (`update_state`) returns `false` exactly when
`current_timer >= stages.len()` at call time; in the terminal state it
mutates nothing, so every subsequent call leaves the state unchanged
and also returns `false`. -/
theorem advance_false_iff_terminal (t : Timer) :
    ((update_state t).2 = false ↔ t.stages.length ≤ t.current_timer) ∧
    (t.stages.length ≤ t.current_timer →
      ∀ n : Nat, advance_iter t n = t ∧ (update_state (advance_iter t n)).2 = false) := by
  constructor
  · by_cases hterm : t.stages.length ≤ t.current_timer
    · rw [update_state_terminal hterm]
      simpa using hterm
    · cases hp : t.paused
      · rw [update_state_run (Nat.lt_of_not_le hterm) hp]
        simpa using hterm
      · rw [update_state_paused hterm hp]
        simpa using hterm
  · intro hterm n
    induction n with
    | zero =>
      refine ⟨rfl, ?_⟩
      show (update_state t).2 = false
      rw [update_state_terminal hterm]
    | succ k ih =>
      have h1 : advance_iter t (k + 1) = t := by
        show (update_state (advance_iter t k)).1 = t
        rw [ih.1, update_state_terminal hterm]
      exact ⟨h1, by rw [h1, update_state_terminal hterm]⟩

/-- Witness for C2: a concrete terminal timer (one stage, cursor past
the end) is left unchanged by three further calls, all returning
`false`. -/
theorem advance_false_iff_terminal_witness :
    advance_iter { stages := [{ name := "A", period_s := 3, elapsed_s := 3 }]
                 , current_timer := 1, paused := false } 3 =
      { stages := [{ name := "A", period_s := 3, elapsed_s := 3 }]
      , current_timer := 1, paused := false } ∧
    (update_state (advance_iter
      { stages := [{ name := "A", period_s := 3, elapsed_s := 3 }]
      , current_timer := 1, paused := false } 3)).2 = false :=
  (advance_false_iff_terminal
    { stages := [{ name := "A", period_s := 3, elapsed_s := 3 }]
    , current_timer := 1, paused := false }).2 (by decide) 3

/-- C1 counterexample: for stages `[("A",3), ("B",2)]` with no pauses,
the 5th call to `advance()` — the call whose increment completes the
last stage — does NOT return `false`: the claim as stated fails on the
code. -/
theorem fifth_advance_not_false :
    ¬ (update_state (advance_iter (init_timer [("A", 3), ("B", 2)]) 4)).2 = false := by
  decide

/-- C1 amended: the call whose increment completes the last stage still
returns `true` (every call made with `current_timer < stages.len()`
returns `true`); completion is signalled on the NEXT call. Concretely,
for stages `[("A",3), ("B",2)]` with no pauses the 5th call returns
`true` and leaves `current_timer = 2 = stages.len()`, and it is the 6th
call that returns `false`. -/
theorem completion_detected_next_call :
    (∀ t : Timer, t.current_timer < t.stages.length → (update_state t).2 = true) ∧
    (advance_iter (init_timer [("A", 3), ("B", 2)]) 3).current_timer = 1 ∧
    (update_state (advance_iter (init_timer [("A", 3), ("B", 2)]) 4)).2 = true ∧
    (advance_iter (init_timer [("A", 3), ("B", 2)]) 5).current_timer = 2 ∧
    (update_state (advance_iter (init_timer [("A", 3), ("B", 2)]) 5)).2 = false := by
  refine ⟨?_, by decide, by decide, by decide, by decide⟩
  intro t hlt
  cases hp : t.paused
  · rw [update_state_run hlt hp]
  · rw [update_state_paused (Nat.not_le_of_lt hlt) hp]

/-- Witness for C1 (amended): the general conjunct applied to a
concrete one-stage timer. -/
theorem completion_detected_next_call_witness :
    (update_state (init_timer [("C", 1)])).2 = true :=
  completion_detected_next_call.1 (init_timer [("C", 1)]) (by decide)

/-- C7: `toggle_pause` flips `paused` and changes neither the stage
list (hence no `elapsed_s`) nor `current_timer`; an even number of
toggles with no intervening `advance()` is the identity. -/
theorem toggle_pause_involutive (t : Timer) :
    (toggle_pause t).paused = !t.paused ∧
    (toggle_pause t).stages = t.stages ∧
    (toggle_pause t).current_timer = t.current_timer ∧
    ∀ n : Nat, toggle_iter t (2 * n) = t := by
  refine ⟨rfl, rfl, rfl, ?_⟩
  intro n
  induction n with
  | zero => rfl
  | succ k ih =>
    have h2 : 2 * (k + 1) = (2 * k) + 1 + 1 := by ring
    rw [h2]
    show toggle_pause (toggle_pause (toggle_iter t (2 * k))) = t
    rw [ih]
    cases t with
    | mk s c p => simp [toggle_pause]

/-- C6: while paused (and not yet terminal) a tick is consumed —
`advance()` returns `true` — but no field changes; any number of ticks
leaves the state unchanged, and the first tick after unpausing
increments the active stage's `elapsed_s` by exactly 1. -/
theorem paused_tick_noop (t : Timer) (hp : t.paused = true)
    (hlt : t.current_timer < t.stages.length) :
    update_state t = (t, true) ∧
    (∀ n : Nat, advance_iter t n = t) ∧
    ((update_state (toggle_pause t)).1.stages[t.current_timer]? =
      some { t.stages.get ⟨t.current_timer, hlt⟩ with
             elapsed_s := (t.stages.get ⟨t.current_timer, hlt⟩).elapsed_s + 1 }) := by
  have hterm : ¬ t.stages.length ≤ t.current_timer := Nat.not_le_of_lt hlt
  have h1 : update_state t = (t, true) := update_state_paused hterm hp
  refine ⟨h1, ?_, ?_⟩
  · intro n
    induction n with
    | zero => rfl
    | succ k ih =>
      show (update_state (advance_iter t k)).1 = t
      rw [ih, h1]
  · have hp2 : (toggle_pause t).paused = false := by
      show (!t.paused) = false
      rw [hp]
      rfl
    have hlt2 : (toggle_pause t).current_timer < (toggle_pause t).stages.length := hlt
    rw [update_state_run hlt2 hp2]
    exact List.getElem?_set_self hlt

/-- Witness for C6: a concrete paused two-stage timer mid-way through
its first stage. -/
theorem paused_tick_noop_witness :
    update_state { stages := [{ name := "A", period_s := 3, elapsed_s := 1 }
                            , { name := "B", period_s := 2, elapsed_s := 0 }]
                 , current_timer := 0, paused := true } =
      ({ stages := [{ name := "A", period_s := 3, elapsed_s := 1 }
                  , { name := "B", period_s := 2, elapsed_s := 0 }]
       , current_timer := 0, paused := true }, true) ∧
    (∀ n : Nat, advance_iter
      { stages := [{ name := "A", period_s := 3, elapsed_s := 1 }
                 , { name := "B", period_s := 2, elapsed_s := 0 }]
      , current_timer := 0, paused := true } n =
      { stages := [{ name := "A", period_s := 3, elapsed_s := 1 }
                 , { name := "B", period_s := 2, elapsed_s := 0 }]
      , current_timer := 0, paused := true }) ∧
    ((update_state (toggle_pause
      { stages := [{ name := "A", period_s := 3, elapsed_s := 1 }
                 , { name := "B", period_s := 2, elapsed_s := 0 }]
      , current_timer := 0, paused := true })).1.stages[(0 : Nat)]? =
      some { name := "A", period_s := 3, elapsed_s := 2 }) :=
  paused_tick_noop
    { stages := [{ name := "A", period_s := 3, elapsed_s := 1 }
               , { name := "B", period_s := 2, elapsed_s := 0 }]
    , current_timer := 0, paused := true } (by decide) (by decide)

/-- C9: the stage drawn at index `i` is mustard yellow exactly when it
is the active stage, the warning threshold is positive, and its
remaining time is within the threshold; the active stage is white
otherwise; every non-active stage is grey. -/
theorem gauge_color_cases (i ct : Nat) (stage : TimerStage) (thr : Nat) :
    (gauge_color i ct stage thr = MUSTARD_YELLOW ↔
      i = ct ∧ 0 < thr ∧ stage.period_s - stage.elapsed_s ≤ thr) ∧
    (gauge_color i ct stage thr = Color.White ↔
      i = ct ∧ ¬ (0 < thr ∧ stage.period_s - stage.elapsed_s ≤ thr)) ∧
    (i ≠ ct → gauge_color i ct stage thr = GREY) := by
  unfold gauge_color
  by_cases h1 : i = ct
  · rw [if_pos h1]
    by_cases h2 : 0 < thr ∧ stage.period_s - stage.elapsed_s ≤ thr
    · rw [if_pos h2]
      refine ⟨⟨fun _ => ⟨h1, h2⟩, fun _ => rfl⟩, ?_, fun hne => absurd h1 hne⟩
      constructor
      · intro hcol
        exact absurd hcol (by decide)
      · intro hc
        exact absurd h2 hc.2
    · rw [if_neg h2]
      refine ⟨?_, ⟨fun _ => ⟨h1, h2⟩, fun _ => rfl⟩, fun hne => absurd h1 hne⟩
      constructor
      · intro hcol
        exact absurd hcol.symm (by decide)
      · intro hc
        exact absurd hc.2 h2
  · rw [if_neg h1]
    refine ⟨?_, ?_, fun _ => rfl⟩
    · constructor
      · intro hcol
        exact absurd hcol (by decide)
      · intro hc
        exact absurd hc.1 h1
    · constructor
      · intro hcol
        exact absurd hcol (by decide)
      · intro hc
        exact absurd hc.1 h1

/-- Witness for C9: a non-active stage is grey even when its remaining
time is inside a positive threshold. -/
theorem gauge_color_cases_witness :
    gauge_color 1 0 { name := "A", period_s := 5, elapsed_s := 4 } 2 = GREY :=
  (gauge_color_cases 1 0 { name := "A", period_s := 5, elapsed_s := 4 } 2).2.2 (by decide)

/-- C10: under the stated invariant (elapsed within period, the active
stage strictly so, all periods in `[1, 2^32)`), neither `u32`
subtraction underflows and the `elapsed_s` increment stays within
`u32`; and with a zero-period active stage the subtraction in
`update_state` underflows on the first unpaused tick. -/
theorem arithmetic_safe :
    (∀ t : Timer,
      (∀ s ∈ t.stages, s.elapsed_s ≤ s.period_s ∧ 1 ≤ s.period_s ∧ s.period_s < 2 ^ 32) →
      (∀ h : t.current_timer < t.stages.length,
        (t.stages.get ⟨t.current_timer, h⟩).elapsed_s <
          (t.stages.get ⟨t.current_timer, h⟩).period_s) →
      update_state_underflows t = false ∧
      update_state_increment_overflows t = false ∧
      update_display_underflows t = false) ∧
    (∀ t : Timer, ∀ h : t.current_timer < t.stages.length,
      t.paused = false →
      (t.stages.get ⟨t.current_timer, h⟩).period_s = 0 →
      update_state_underflows t = true) := by
  constructor
  · intro t hb hactive
    refine ⟨?_, ?_, ?_⟩
    · unfold update_state_underflows
      split
      · rename_i h
        have h1 := hactive h
        simp only [Bool.and_eq_false_iff, decide_eq_false_iff_not]
        right
        omega
      · rfl
    · unfold update_state_increment_overflows
      split
      · rename_i h
        have h1 := hactive h
        have h2 := (hb (t.stages.get ⟨t.current_timer, h⟩)
          (List.get_mem t.stages t.current_timer h)).2.2
        simp only [Bool.and_eq_false_iff, decide_eq_false_iff_not]
        right
        omega
      · rfl
    · unfold update_display_underflows
      rw [List.any_eq_false]
      intro s hs
      simp [Nat.not_lt_of_le (hb s hs).1]
  · intro t h hpause hzero
    unfold update_state_underflows
    rw [dif_pos h]
    simp only [hpause, Bool.not_false, Bool.true_and, decide_eq_true_eq]
    omega

/-- Witness for C10: a fresh two-stage timer is arithmetic-safe, and a
fresh zero-period stage underflows at once. -/
theorem arithmetic_safe_witness :
    (update_state_underflows (init_timer [("A", 3), ("B", 2)]) = false ∧
     update_state_increment_overflows (init_timer [("A", 3), ("B", 2)]) = false ∧
     update_display_underflows (init_timer [("A", 3), ("B", 2)]) = false) ∧
    update_state_underflows (init_timer [("Z", 0)]) = true :=
  ⟨arithmetic_safe.1 (init_timer [("A", 3), ("B", 2)]) (by decide)
    (fun _ =>
      (by decide :
        ((init_timer [("A", 3), ("B", 2)]).stages.get ⟨0, by decide⟩).elapsed_s <
          ((init_timer [("A", 3), ("B", 2)]).stages.get ⟨0, by decide⟩).period_s))
  , arithmetic_safe.2 (init_timer [("Z", 0)]) (by decide) rfl rfl⟩

/-- C3: for a timer built from positive durations, the spec's data
invariant — `0 ≤ elapsed_s ≤ duration_s` for every stage and
`current_index ∈ [0, len(stages)]` — holds initially (all `elapsed_s`
zero, cursor zero) and after every sequence of `advance()` and
`toggle_pause()` calls. -/
theorem stage_bounds_invariant (nts : List (String × Nat))
    (hpos : ∀ p ∈ nts, 1 ≤ p.2) :
    (init_timer nts).current_timer = 0 ∧
    (∀ s ∈ (init_timer nts).stages, s.elapsed_s = 0) ∧
    ∀ ops : List Op, stage_bounds_inv (run_ops (init_timer nts) ops) := by
  refine ⟨rfl, ?_, ?_⟩
  · intro s hs
    unfold init_timer create_timer_list at hs
    rw [List.mem_map] at hs
    obtain ⟨q, hq, rfl⟩ := hs
    rfl
  · intro ops
    have h := reach_inv_run_ops (reach_inv_init nts hpos) ops
    exact ⟨fun s hs => (h.2.1 s hs).2, h.1⟩

/-- Witness for C3: the invariant evaluated on the spec's scenario
stages after a concrete mix of six ticks and toggles. -/
theorem stage_bounds_invariant_witness :
    stage_bounds_inv (run_ops (init_timer [("A", 3), ("B", 2)])
      [Op.advance, Op.toggle, Op.advance, Op.toggle, Op.advance, Op.advance]) :=
  (stage_bounds_invariant [("A", 3), ("B", 2)] (by decide)).2.2
    [Op.advance, Op.toggle, Op.advance, Op.toggle, Op.advance, Op.advance]

/-- The running branch of `update_state`, stated for an explicit
unpaused state so it can be rewritten under iteration. -/
theorem update_state_explicit (stages : List TimerStage) (ct : Nat)
    (hlt : ct < stages.length) :
    update_state { stages := stages, current_timer := ct, paused := false } =
      ({ stages := stages.set ct
           { stages.get ⟨ct, hlt⟩ with
             elapsed_s := (stages.get ⟨ct, hlt⟩).elapsed_s + 1 }
       , current_timer :=
           if (stages.get ⟨ct, hlt⟩).period_s -
               ((stages.get ⟨ct, hlt⟩).elapsed_s + 1) = 0
           then ct + 1 else ct
       , paused := false }, true) :=
  update_state_run hlt rfl

/-- After `k ≤ P` unpaused ticks on a fresh active stage of period `P`,
the only change is that stage's `elapsed_s = k`, with the cursor
advancing exactly when `k = P`. -/
theorem advance_iter_stage (t : Timer) (P : Nat)
    (hlt : t.current_timer < t.stages.length)
    (hP : (t.stages.get ⟨t.current_timer, hlt⟩).period_s = P)
    (h0 : (t.stages.get ⟨t.current_timer, hlt⟩).elapsed_s = 0)
    (hpos : 1 ≤ P) (hpause : t.paused = false) :
    ∀ k, k ≤ P →
      advance_iter t k =
        { stages := t.stages.set t.current_timer
            { t.stages.get ⟨t.current_timer, hlt⟩ with elapsed_s := k }
        , current_timer := if P ≤ k then t.current_timer + 1 else t.current_timer
        , paused := false } := by
  intro k
  induction k with
  | zero =>
    intro _
    rw [if_neg (by omega)]
    have he : ({ t.stages.get ⟨t.current_timer, hlt⟩ with elapsed_s := 0 } : TimerStage)
        = t.stages.get ⟨t.current_timer, hlt⟩ := by
      rw [← h0]
    rw [he, set_get_self]
    show t = _
    cases t with
    | mk s c p =>
      dsimp only at hpause ⊢
      rw [hpause]
  | succ k ih =>
    intro hk1
    have hk : k ≤ P := Nat.le_of_succ_le hk1
    have hkP : ¬ P ≤ k := by omega
    have hstate := ih hk
    rw [if_neg hkP] at hstate
    show (update_state (advance_iter t k)).1 = _
    have hlt2 : t.current_timer < (t.stages.set t.current_timer
        { t.stages.get ⟨t.current_timer, hlt⟩ with elapsed_s := k }).length := by
      rw [List.length_set]
      exact hlt
    rw [hstate, update_state_explicit (t.stages.set t.current_timer
      { t.stages.get ⟨t.current_timer, hlt⟩ with elapsed_s := k }) t.current_timer hlt2]
    dsimp only
    rw [List.get_set_eq hlt2]
    dsimp only
    rw [List.set_set]
    congr 1
    rw [hP]
    by_cases hc : P ≤ k + 1
    · rw [if_pos (show P - (k + 1) = 0 by omega), if_pos hc]
    · rw [if_neg (show ¬ P - (k + 1) = 0 by omega), if_neg hc]

/-- C5: if the active stage of an unpaused timer has period `P ≥ 1` and
`elapsed_s = 0`, then exactly `P` unpaused ticks leave that stage with
`elapsed_s = P` (name and period untouched) and move the cursor forward
by exactly one. -/
theorem advance_P_completes_stage (t : Timer) (P : Nat)
    (hlt : t.current_timer < t.stages.length)
    (hP : (t.stages.get ⟨t.current_timer, hlt⟩).period_s = P)
    (h0 : (t.stages.get ⟨t.current_timer, hlt⟩).elapsed_s = 0)
    (hpos : 1 ≤ P) (hpause : t.paused = false) :
    (advance_iter t P).stages[t.current_timer]? =
      some { t.stages.get ⟨t.current_timer, hlt⟩ with elapsed_s := P } ∧
    (advance_iter t P).current_timer = t.current_timer + 1 := by
  have h := advance_iter_stage t P hlt hP h0 hpos hpause P (Nat.le_refl P)
  rw [h]
  refine ⟨List.getElem?_set_self hlt, ?_⟩
  dsimp only
  rw [if_pos (Nat.le_refl P)]

/-- Witness for C5: the spec's scenario stage A (period 3) completes
after exactly three ticks. -/
theorem advance_P_completes_stage_witness :
    (advance_iter (init_timer [("A", 3), ("B", 2)]) 3).stages[(0 : Nat)]? =
      some { name := "A", period_s := 3, elapsed_s := 3 } ∧
    (advance_iter (init_timer [("A", 3), ("B", 2)]) 3).current_timer = 0 + 1 :=
  advance_P_completes_stage (init_timer [("A", 3), ("B", 2)]) 3
    (by decide) rfl rfl (by decide) rfl

/-- C4 counterexample: a zero stage duration does NOT fail
construction. `create_timer_list`/`main` perform no validation and
there is no `InvalidDuration` error in the program: the input
`[("A", 0)]` produces a fully formed `Timer` holding the zero-period
stage. -/
theorem zero_duration_constructs :
    init_timer [("A", 0)] =
      { stages := [{ name := "A", period_s := 0, elapsed_s := 0 }]
      , current_timer := 0, paused := false } := rfl

/-- C4 amended: for every input list starting with a zero duration,
construction succeeds unconditionally — the stage list has the full
length, the zero stage is present with `elapsed_s = 0`, the first tick
is processed normally (`advance()` returns `true`) — and the zero
duration instead makes the `u32` subtraction in `update_state`
underflow on that first unpaused tick. -/
theorem construction_never_fails (name : String) (rest : List (String × Nat)) :
    (init_timer ((name, 0) :: rest)).stages.length = rest.length + 1 ∧
    (init_timer ((name, 0) :: rest)).stages[(0 : Nat)]? =
      some { name := name, period_s := 0, elapsed_s := 0 } ∧
    (update_state (init_timer ((name, 0) :: rest))).2 = true ∧
    update_state_underflows (init_timer ((name, 0) :: rest)) = true := by
  refine ⟨?_, ?_, ?_, ?_⟩
  · show (create_timer_list ((name, 0) :: rest)).length = rest.length + 1
    unfold create_timer_list
    rw [List.length_map, List.length_cons]
  · show (create_timer_list ((name, 0) :: rest))[(0 : Nat)]? = _
    unfold create_timer_list
    rw [List.map_cons, List.getElem?_cons_zero]
  · have hlt : (init_timer ((name, 0) :: rest)).current_timer <
        (init_timer ((name, 0) :: rest)).stages.length := by
      show 0 < (create_timer_list ((name, 0) :: rest)).length
      unfold create_timer_list
      rw [List.length_map]
      exact Nat.succ_pos _
    rw [update_state_run hlt rfl]
  · unfold update_state_underflows
    rw [dif_pos (show (init_timer ((name, 0) :: rest)).current_timer <
        (init_timer ((name, 0) :: rest)).stages.length by
      show 0 < (create_timer_list ((name, 0) :: rest)).length
      unfold create_timer_list
      rw [List.length_map]
      exact Nat.succ_pos _)]
    rfl

/-- One step of the accumulation loop. -/
theorem parse_time_loop_cons (seg : List Char) (rest : List (List Char)) (sec factor : Nat) :
    parse_time_loop (seg :: rest) sec factor =
      match parse_u32 seg with
      | some parsed =>
        parse_time_loop rest ((sec + parsed * factor % 2 ^ 32) % 2 ^ 32)
          (factor * 60 % 2 ^ 32)
      | none => none := rfl

/-- One step of the overflow tracker. -/
theorem parse_time_loop_overflows_cons (seg : List Char) (rest : List (List Char))
    (sec factor : Nat) :
    parse_time_loop_overflows (seg :: rest) sec factor =
      match parse_u32 seg with
      | some parsed =>
        decide (2 ^ 32 ≤ parsed * factor) ||
        decide (2 ^ 32 ≤ sec + parsed * factor % 2 ^ 32) ||
        decide (2 ^ 32 ≤ factor * 60) ||
        parse_time_loop_overflows rest ((sec + parsed * factor % 2 ^ 32) % 2 ^ 32)
          (factor * 60 % 2 ^ 32)
      | none => false := rfl

/-- One step of the spec-side interpretation. -/
theorem spec_interp_cons (seg : List Char) (rest : List (List Char)) :
    spec_interp (seg :: rest) =
      match parse_u32 seg, spec_interp rest with
      | some v, some r => some (v + 60 * r)
      | _, _ => none := rfl

/-- On segments where no `u32` accumulator operation overflows, the
source's loop with accumulator `(sec, factor)` computes
`sec + factor * r` where `r` is the spec-side interpretation. -/
theorem parse_time_loop_spec (l : List (List Char)) :
    ∀ sec factor, parse_time_loop_overflows l sec factor = false →
      parse_time_loop l sec factor =
        (spec_interp l).map (fun r => sec + factor * r) := by
  induction l with
  | nil =>
    intro sec factor _
    show some sec = some (sec + factor * 0)
    rw [Nat.mul_zero, Nat.add_zero]
  | cons seg rest ih =>
    intro sec factor hov
    rw [parse_time_loop_overflows_cons] at hov
    rw [parse_time_loop_cons, spec_interp_cons]
    cases hseg : parse_u32 seg with
    | none =>
      show (none : Option Nat) = _
      cases hrest : spec_interp rest <;> rfl
    | some v =>
      rw [hseg] at hov
      simp only [Bool.or_eq_false_iff, decide_eq_false_iff_not] at hov
      obtain ⟨⟨⟨h1, h2⟩, h3⟩, h4⟩ := hov
      have hm1 : v * factor % 2 ^ 32 = v * factor := Nat.mod_eq_of_lt (by omega)
      rw [hm1] at h2 h4
      have hm2 : (sec + v * factor) % 2 ^ 32 = sec + v * factor :=
        Nat.mod_eq_of_lt (by omega)
      have hm3 : factor * 60 % 2 ^ 32 = factor * 60 := Nat.mod_eq_of_lt (by omega)
      rw [hm2, hm3] at h4
      show parse_time_loop rest ((sec + v * factor % 2 ^ 32) % 2 ^ 32)
        (factor * 60 % 2 ^ 32) = _
      rw [hm1, hm2, hm3, ih (sec + v * factor) (factor * 60) h4]
      cases hrest : spec_interp rest with
      | none => rfl
      | some r =>
        show some (sec + v * factor + factor * 60 * r) = some (sec + factor * (v + 60 * r))
        congr 1
        ring

/-- On overflow-free input the parser refines the spec-side
right-to-left interpretation. -/
theorem parse_ref_eq_spec (value : String)
    (hov : parse_ref_overflows value = false) :
    parse_ref value = spec_interp (split_colon value.data).reverse := by
  rw [parse_ref, parse_time_loop_spec (split_colon value.data).reverse 0 1 hov]
  cases h : spec_interp (split_colon value.data).reverse with
  | none => rfl
  | some r =>
    show some (0 + 1 * r) = some r
    rw [Nat.one_mul, Nat.zero_add]

/-- When every segment parses, `spec_interp` is the weighted sum
`∑ vᵢ * 60^i` over the (rightmost-first) segment list. -/
theorem spec_interp_powers (segs : List (List Char))
    (hall : ∀ s ∈ segs, (parse_u32 s).isSome) :
    spec_interp segs =
      some (∑ i ∈ Finset.range segs.length,
        (parse_u32 (segs.getD i [])).getD 0 * 60 ^ i) := by
  induction segs with
  | nil => rfl
  | cons seg rest ih =>
    have hseg := hall seg (List.mem_cons_self seg rest)
    obtain ⟨v, hv⟩ := Option.isSome_iff_exists.mp hseg
    have hrest := ih (fun s hs => hall s (List.mem_cons_of_mem seg hs))
    rw [spec_interp_cons, hv, hrest]
    show some _ = _
    congr 1
    rw [List.length_cons, Finset.sum_range_succ']
    have hshift : ∀ i : Nat,
        (parse_u32 ((seg :: rest).getD (i + 1) [])).getD 0 * 60 ^ (i + 1) =
          60 * ((parse_u32 (rest.getD i [])).getD 0 * 60 ^ i) := by
      intro i
      show (parse_u32 (rest.getD i [])).getD 0 * 60 ^ (i + 1) = _
      rw [pow_succ]
      ring
    rw [Finset.sum_congr rfl (fun i _ => hshift i), ← Finset.mul_sum]
    simp only [List.getD_cons_zero, hv, Option.getD_some]
    ring

/-- A single unparseable segment makes the whole interpretation fail. -/
theorem spec_interp_err (segs : List (List Char))
    (h : ∃ s ∈ segs, parse_u32 s = none) : spec_interp segs = none := by
  induction segs with
  | nil =>
    obtain ⟨s, hs, _⟩ := h
    exact absurd hs (List.not_mem_nil s)
  | cons seg rest ih =>
    obtain ⟨s, hs, hnone⟩ := h
    rw [spec_interp_cons]
    rcases List.mem_cons.mp hs with hs1 | hs1
    · subst hs1
      rw [hnone]
    · rw [ih ⟨s, hs1, hnone⟩]
      cases parse_u32 seg <;> rfl

/-- C8 counterexample: the in-grammar input `"1200000:0:0"` makes the
`u32` accumulation of main.rs lines 76-77 overflow
(`1200000 * 3600 ≥ 2^32`), so the program does not compute the base-60
sum `1200000 * 60^2 = 4320000000` there: a release build wraps to
`25032704` (the modelled value) and a debug build panics. The claim's
universal "multiply the i-th segment from the right by 60^i and sum"
fails at this concrete input. -/
theorem parse_ref_overflow_wraps :
    parse_ref "1200000:0:0" = some 25032704 ∧
    parse_ref_overflows "1200000:0:0" = true ∧
    ¬ parse_ref "1200000:0:0" =
        some (1200000 * 60 ^ 2 + 0 * 60 ^ 1 + 0 * 60 ^ 0) := by
  decide

/-- C8 amended: whenever none of the loop's `u32` accumulator
operations overflows (`parse_ref_overflows value = false` — where
release wrapping and a debug panic are the alternatives), the duration
parser interprets the colon-separated string right-to-left with
base-60 weights: it refines `spec_interp`, which on fully-parsing
input equals `∑ vᵢ * 60^i` over the segments numbered from the right,
and fails whenever any segment fails to parse as a `u32`. The four
concrete mappings of the spec and two error cases are evaluated, and
all four stay inside the overflow-free region. -/
theorem parse_ref_base60 :
    (∀ value : String, parse_ref_overflows value = false →
      parse_ref value = spec_interp (split_colon value.data).reverse) ∧
    (∀ segs : List (List Char), (∀ s ∈ segs, (parse_u32 s).isSome) →
      spec_interp segs = some (∑ i ∈ Finset.range segs.length,
        (parse_u32 (segs.getD i [])).getD 0 * 60 ^ i)) ∧
    (∀ segs : List (List Char), (∃ s ∈ segs, parse_u32 s = none) →
      spec_interp segs = none) ∧
    parse_ref "90" = some 90 ∧
    parse_ref "1:30" = some 90 ∧
    parse_ref "1:01:01" = some 3661 ∧
    parse_ref "0:0:5" = some 5 ∧
    parse_ref "1:2x" = none ∧
    parse_ref "" = none ∧
    parse_ref_overflows "90" = false ∧
    parse_ref_overflows "1:30" = false ∧
    parse_ref_overflows "1:01:01" = false ∧
    parse_ref_overflows "0:0:5" = false :=
  ⟨parse_ref_eq_spec, spec_interp_powers, spec_interp_err,
   by decide, by decide, by decide, by decide, by decide, by decide,
   by decide, by decide, by decide, by decide⟩

/-- Witness for C8: the refinement applied to the overflow-free input
"1:30", the power-sum form on the segments of "2:5" given
rightmost-first, and the error case on a non-numeric segment. -/
theorem parse_ref_base60_witness :
    parse_ref "1:30" = spec_interp (split_colon "1:30".data).reverse ∧
    spec_interp [[Char.ofNat 53], [Char.ofNat 50]] =
      some (∑ i ∈ Finset.range
          ([[Char.ofNat 53], [Char.ofNat 50]] : List (List Char)).length,
        (parse_u32 (([[Char.ofNat 53], [Char.ofNat 50]] : List (List Char)).getD i [])).getD 0
          * 60 ^ i) ∧
    spec_interp [[Char.ofNat 120]] = none :=
  ⟨parse_ref_base60.1 "1:30" (by decide),
   parse_ref_base60.2.1 [[Char.ofNat 53], [Char.ofNat 50]] (by decide),
   parse_ref_base60.2.2.1 [[Char.ofNat 120]] (by decide)⟩

end StagedTimer
